import Mathlib

/-!
Formal model of the data-handling core of the chemical-inventory application
(`app.py`): cell values, the type-normalization steps performed by
`load_data`, `save_data` and `_ensure_schema`, the CSV write/read layer, and
the Merge/Upsert reconciliation logic.

Modelling conventions:
* A pandas cell is a `Value`: float-missing `na` (`NaN`), the masked missing
  value `pdNA` (`pd.NA`, the fill used for wholly absent columns, whose
  `astype(str)` rendering is `"<NA>"`), a string, an int64, or a float
  rendered by its decimal expansion (`flt m e` denotes the float printed as
  `m / 10^e` with `e` digits after the decimal point).  Column-level dtype
  promotion is not modelled; all operations are per cell, which is how every
  claim reads them.
* Decimal literals with an optional sign, an optional fractional part and an
  optional `e`/`E` exponent are parsed.  Boolean, infinity and NaN word
  tokens, which `read_csv` also converts, are not turned into values by
  `readCell`; instead `csvConverted` names them (case-insensitively and
  generously) and every round-trip hypothesis excludes them, so no theorem
  asserts program behaviour on such cells.
* CSV quoting is invisible at this level: a written cell reads back as the
  same raw string, which is exactly pandas `to_csv`/`read_csv` behaviour for
  quoted fields.
-/

namespace ChemInventory

/-- A pandas cell value: float-missing (`na`, i.e. `NaN`, which `str`
renders as `"nan"`), the masked missing value `pdNA` (`pd.NA`, which the
program uses to fill wholly absent columns and which `astype(str)` renders
as `"<NA>"`), text, integer, or a float given by its decimal rendering
(`flt m e` prints as `m / 10^e` with `e` fractional digits). -/
inductive Value where
  | na : Value
  | pdNA : Value
  | str : String → Value
  | int : Int → Value
  | flt : Int → Nat → Value
deriving DecidableEq, Repr

/-- The eleven data columns of `EXPECTED_COLS` in `app.py`. -/
inductive Field where
  | name | cas | carbons | distributor | container_size
  | state | location | bottles | storage_conditions | hazards | sds_link
deriving DecidableEq, Repr, Fintype

/-- `EXPECTED_COLS` from `app.py`, in source order. -/
def EXPECTED_COLS : List Field :=
  [.name, .cas, .carbons, .distributor, .container_size,
   .state, .location, .bottles, .storage_conditions, .hazards, .sds_link]

/-- The nine text columns normalized by
`for c in ["name","cas",...]: df[c] = df[c].astype(str)...` in `app.py`. -/
def textCols : List Field :=
  [.name, .cas, .distributor, .container_size, .state, .location,
   .storage_conditions, .hazards, .sds_link]

/-- An inventory record: one row of the DataFrame.  `row_id` models the
`_row_id` column (`none` when the row has no id yet). -/
structure Row where
  name : Value
  cas : Value
  carbons : Value
  distributor : Value
  container_size : Value
  state : Value
  location : Value
  bottles : Value
  storage_conditions : Value
  hazards : Value
  sds_link : Value
  row_id : Option String
deriving DecidableEq, Repr

/-- Read a data column of a row. -/
def getCol (r : Row) : Field → Value
  | .name => r.name
  | .cas => r.cas
  | .carbons => r.carbons
  | .distributor => r.distributor
  | .container_size => r.container_size
  | .state => r.state
  | .location => r.location
  | .bottles => r.bottles
  | .storage_conditions => r.storage_conditions
  | .hazards => r.hazards
  | .sds_link => r.sds_link

/-- Write a data column of a row. -/
def setCol (r : Row) (f : Field) (v : Value) : Row :=
  match f with
  | .name => { r with name := v }
  | .cas => { r with cas := v }
  | .carbons => { r with carbons := v }
  | .distributor => { r with distributor := v }
  | .container_size => { r with container_size := v }
  | .state => { r with state := v }
  | .location => { r with location := v }
  | .bottles => { r with bottles := v }
  | .storage_conditions => { r with storage_conditions := v }
  | .hazards => { r with hazards := v }
  | .sds_link => { r with sds_link := v }

/-! ### Character and digit utilities -/

/-- ASCII digit test (avoids `UInt32` reasoning). -/
def isDigitC (c : Char) : Bool := 48 ≤ c.toNat && c.toNat ≤ 57

/-- ASCII whitespace test, the characters Python `str.strip` removes in the
inputs this development meets. -/
def isWsC (c : Char) : Bool :=
  c.toNat == 32 || c.toNat == 9 || c.toNat == 10 || c.toNat == 13

/-- Lowercase one ASCII character, as Python `str.lower` does on ASCII. -/
def lowerC (c : Char) : Char :=
  if 65 ≤ c.toNat ∧ c.toNat ≤ 90 then Char.ofNat (c.toNat + 32) else c

/-- Strip leading and trailing whitespace from a character list
(Python `str.strip`). -/
def stripWS (l : List Char) : List Char :=
  ((l.dropWhile isWsC).reverse.dropWhile isWsC).reverse

/-- Numeric value of a digit character. -/
def charVal (c : Char) : Nat := c.toNat - 48

/-- Value of a digit string, most significant digit first. -/
def digitsVal (l : List Char) : Nat :=
  l.foldl (fun a c => a * 10 + charVal c) 0

/-- Fuel-driven core of `natToDigits`; the fuel keeps the recursion
structural so results compute inside the kernel. -/
def natToDigitsAux : Nat → Nat → List Char
  | 0, _ => []
  | fuel + 1, n =>
    if n < 10 then [Nat.digitChar n]
    else natToDigitsAux fuel (n / 10) ++ [Nat.digitChar (n % 10)]

/-- Decimal digits of a natural number, as Python `str` renders it. -/
def natToDigits (n : Nat) : List Char := natToDigitsAux (n + 1) n

/-- Python `str` of an int. -/
def intToString (n : Int) : String :=
  (if n < 0 then "-" else "") ++ String.mk (natToDigits n.natAbs)

/-! ### Floats as decimal renderings -/

/-- Negate a numeric value. -/
def negValue : Value → Value
  | .int n => .int (-n)
  | .flt m e => .flt (-m) e
  | v => v

/-- Canonical decimal rendering of a nonnegative float: at least one digit
after the point, and no trailing fractional zero. -/
def canonFltNat : Nat → Nat → Value
  | m, 0 => .flt (m * 10) 1
  | m, 1 => .flt m 1
  | m, e + 2 => if m % 10 == 0 then canonFltNat (m / 10) (e + 1) else .flt m (e + 2)

/-- Canonical decimal rendering of a float value. -/
def canonFlt (m : Int) (e : Nat) : Value :=
  if m < 0 then negValue (canonFltNat m.natAbs e) else canonFltNat m.natAbs e

/-- Character rendering of a nonnegative float `mAbs / 10^e`, as Python
`str` prints a float (always at least one digit on each side of the dot). -/
def fltChars (mAbs : Nat) (e : Nat) : List Char :=
  if e = 0 then natToDigits mAbs ++ ['.', '0']
  else
    let ds := natToDigits mAbs
    let ds := if ds.length ≤ e then List.replicate (e + 1 - ds.length) '0' ++ ds else ds
    ds.take (ds.length - e) ++ '.' :: ds.drop (ds.length - e)

/-- Python `str` of a cell value: `str(nan) = "nan"`, `str(pd.NA) = "<NA>"`
(so `replace({"nan": ""})` does not clear it), strings unchanged, ints and
floats in decimal. -/
def pyStr : Value → String
  | .na => "nan"
  | .pdNA => "<NA>"
  | .str s => s
  | .int n => intToString n
  | .flt m e => (if m < 0 then "-" else "") ++ String.mk (fltChars m.natAbs e)

/-! ### Decimal parsing (`pd.to_numeric` / `read_csv` numeric conversion) -/

/-- Split a character list at the first dot. -/
def splitOnDot : List Char → List Char × Option (List Char)
  | [] => ([], none)
  | c :: t =>
    if c = '.' then ([], some t)
    else
      let (ip, fp) := splitOnDot t
      (c :: ip, fp)

/-- Parse the two sides of an (optional) dot: a plain digit string is an
integer literal, a dotted pair of digit strings is a float. -/
def parseParts (ip : List Char) : Option (List Char) → Option Value
  | none =>
    if (!ip.isEmpty) && ip.all isDigitC then some (.int (Int.ofNat (digitsVal ip))) else none
  | some fp =>
    if (!fp.contains '.') && (!ip.isEmpty || !fp.isEmpty) && ip.all isDigitC && fp.all isDigitC
    then some (canonFlt (Int.ofNat (digitsVal ip * 10 ^ fp.length + digitsVal fp)) fp.length)
    else none

/-- Split a character list at the first `e` or `E` (the exponent marker). -/
def splitOnExp : List Char → List Char × Option (List Char)
  | [] => ([], none)
  | c :: t =>
    if c = 'e' ∨ c = 'E' then ([], some t)
    else
      let (m, x) := splitOnExp t
      (c :: m, x)

/-- Parse an exponent suffix: an optional sign followed by digits. -/
def parseExp (l : List Char) : Option Int :=
  match l with
  | '+' :: t => if (!t.isEmpty) && t.all isDigitC then some (Int.ofNat (digitsVal t)) else none
  | '-' :: t => if (!t.isEmpty) && t.all isDigitC then some (-(Int.ofNat (digitsVal t))) else none
  | t => if (!t.isEmpty) && t.all isDigitC then some (Int.ofNat (digitsVal t)) else none

/-- Combine a mantissa (`ip . fp`) with a parsed exponent: scientific
notation always yields a float, shifted by the exponent (`"5e3"` is the
float 5000.0, `"5e-3"` is 0.005). -/
def parseExpCore (ip fp : List Char) : Option Int → Option Value
  | none => none
  | some x =>
    if (!fp.contains '.') && (!ip.isEmpty || !fp.isEmpty)
        && ip.all isDigitC && fp.all isDigitC
    then
      if 0 ≤ x - (fp.length : Int)
      then some (canonFlt
        (Int.ofNat ((digitsVal ip * 10 ^ fp.length + digitsVal fp)
          * 10 ^ (x - (fp.length : Int)).toNat)) 0)
      else some (canonFlt (Int.ofNat (digitsVal ip * 10 ^ fp.length + digitsVal fp))
        (-(x - (fp.length : Int))).toNat)
    else none

/-- Parse a mantissa together with an exponent suffix. -/
def parseWithExp (ip : List Char) (fpo : Option (List Char)) (ex : List Char) : Option Value :=
  parseExpCore ip (fpo.getD []) (parseExp ex)

/-- Parse the part before an (absent or present) exponent marker. -/
def parseSplit (m : List Char) : Option (List Char) → Option Value
  | none => parseParts (splitOnDot m).1 (splitOnDot m).2
  | some ex => parseWithExp (splitOnDot m).1 (splitOnDot m).2 ex

/-- Parse an unsigned decimal literal: digits, optionally with a dot and a
fractional part, optionally with an `e`/`E` exponent (`"5"`, `"5."`,
`".5"`, `"0.50"`, `"5e3"`, `"1.5E-2"`). -/
def parseUnsigned (l : List Char) : Option Value :=
  parseSplit (splitOnExp l).1 (splitOnExp l).2

/-- Parse a decimal literal with optional surrounding whitespace and an
optional sign, returning an int for integer literals and a float otherwise;
`none` models a value `pd.to_numeric(..., errors="coerce")` turns into NaN. -/
def parseDecimal (s : String) : Option Value :=
  match stripWS s.data with
  | [] => none
  | c :: t =>
    if c = '-' then (parseUnsigned t).map negValue
    else if c = '+' then parseUnsigned t
    else parseUnsigned (c :: t)

/-! ### The normalization steps of `app.py` -/

/-- `pd.to_numeric(x, errors="coerce")` on one cell.  Floats are kept (up to
canonical decimal rendering); strings are parsed; `pd.NA` coerces to `NaN`;
unparseable values become missing. -/
def toNumeric : Value → Value
  | .na => .na
  | .pdNA => .na
  | .int n => .int n
  | .flt m e => canonFlt m e
  | .str s => match parseDecimal s with
    | some v => v
    | none => .na

/-- The integer produced for one cell of the `bottles` column by
`pd.to_numeric(df["bottles"], errors="coerce").fillna(1).astype(int)`:
parse failures and missing values become 1, floats truncate toward zero. -/
def bottlesInt (v : Value) : Int :=
  match toNumeric v with
  | .na => 1
  | .int n => n
  | .flt m e => Int.tdiv m (10 ^ e)
  | .pdNA => 1
  | .str _ => 1

/-- One cell of the `bottles` column after normalization. -/
def bottlesNorm (v : Value) : Value := .int (bottlesInt v)

/-- One text cell after `astype(str).replace({"nan": ""}).fillna("")`:
stringify (missing prints as `"nan"`), then the exact string `"nan"` becomes
empty; `fillna` is a no-op because stringification leaves nothing missing. -/
def textNorm (v : Value) : Value :=
  let s := pyStr v
  .str (if s = "nan" then "" else s)

/-- `_ensure_schema` / the shared cleaning steps of `load_data` and
`save_data`, on one row: text columns via `textNorm`, `bottles` via
`bottlesNorm`, `carbons` via `to_numeric`, `_row_id` untouched. -/
def ensureSchemaRow (r : Row) : Row :=
  ⟨textNorm r.name, textNorm r.cas, toNumeric r.carbons, textNorm r.distributor,
   textNorm r.container_size, textNorm r.state, textNorm r.location,
   bottlesNorm r.bottles, textNorm r.storage_conditions, textNorm r.hazards,
   textNorm r.sds_link, r.row_id⟩

/-- `_ensure_schema` from `app.py`: align every row to the expected columns
and clean the types.  A column absent from the frame is created as `pd.NA`
cells (`df[c] = pd.NA`), modelled as `pdNA`; an individually missing value
that came through `read_csv` or `to_numeric` is `na`.  The reindexing
`df[keep_cols]` is the identity here. -/
def _ensure_schema (rs : List Row) : List Row := rs.map ensureSchemaRow

/-! ### The CSV store (`to_csv` / `read_csv` at cell level) -/

/-- One line of the CSV file `chemicals_master.csv`: the raw text of each
cell, in the column order `EXPECTED_COLS + [_row_id]` that `save_data`
writes. -/
structure CsvRow where
  name : String
  cas : String
  carbons : String
  distributor : String
  container_size : String
  state : String
  location : String
  bottles : String
  storage_conditions : String
  hazards : String
  sds_link : String
  row_id : String
deriving DecidableEq, Repr

/-- How `to_csv` renders one cell: missing values (both `NaN` and `pd.NA`)
become the empty field, everything else its Python string. -/
def writeCell : Value → String
  | .na => ""
  | .pdNA => ""
  | v => pyStr v

/-- The default tokens `read_csv` interprets as missing values. -/
def naValues : List String :=
  ["", "#N/A", "#N/A N/A", "#NA", "-1.#IND", "-1.#QNAN", "-NaN", "-nan",
   "1.#IND", "1.#QNAN", "<NA>", "N/A", "NA", "NULL", "NaN", "None",
   "n/a", "nan", "null"]

/-- How `read_csv` interprets one raw cell: an NA token becomes missing, a
decimal literal becomes a number, anything else stays text. -/
def readCell (s : String) : Value :=
  if naValues.contains s then .na
  else
    match parseDecimal s with
    | some v => v
    | none => .str s

/-- The cleaning `load_data` applies to one freshly read row: row ids pass
through `astype(str)`, text columns through `textNorm`, `bottles` through
`bottlesNorm`, `carbons` through `to_numeric`. -/
def loadRow (c : CsvRow) : Row :=
  ⟨textNorm (readCell c.name), textNorm (readCell c.cas),
   toNumeric (readCell c.carbons), textNorm (readCell c.distributor),
   textNorm (readCell c.container_size), textNorm (readCell c.state),
   textNorm (readCell c.location), bottlesNorm (readCell c.bottles),
   textNorm (readCell c.storage_conditions), textNorm (readCell c.hazards),
   textNorm (readCell c.sds_link), some (pyStr (readCell c.row_id))⟩

/-- State of the CSV data file as `load_data` finds it: absent, unreadable
(`pd.read_csv` or the subsequent cleaning raises), or a readable table.
`save_data` always writes the full column set, which is what `ok` carries. -/
inductive FileState where
  | missing : FileState
  | corrupt : FileState
  | ok : List CsvRow → FileState

/-- `load_data` from `app.py`: no file or any exception while reading and
cleaning yields the empty record set; otherwise every row is cleaned. -/
def load_data : FileState → List Row
  | .missing => []
  | .corrupt => []
  | .ok rows => rows.map loadRow

/-- The normalization `save_data` applies to one row before writing: text
and bottles are cleaned exactly as in `_ensure_schema`, `carbons` is left
untouched (`save_data` has no `to_numeric` step for it), and a missing row
id is replaced by a fresh one. -/
def saveNormRow (id : String) (r : Row) : Row :=
  ⟨textNorm r.name, textNorm r.cas, r.carbons, textNorm r.distributor,
   textNorm r.container_size, textNorm r.state, textNorm r.location,
   bottlesNorm r.bottles, textNorm r.storage_conditions, textNorm r.hazards,
   textNorm r.sds_link, some (r.row_id.getD id)⟩

/-- Render one normalized row as the CSV line `to_csv` writes. -/
def writeRow (r : Row) : CsvRow :=
  ⟨writeCell r.name, writeCell r.cas, writeCell r.carbons,
   writeCell r.distributor, writeCell r.container_size, writeCell r.state,
   writeCell r.location, writeCell r.bottles, writeCell r.storage_conditions,
   writeCell r.hazards, writeCell r.sds_link, r.row_id.getD ""⟩

/-- Normalize and render the rows from position `i` on; `ids` supplies the
fresh `uuid4` strings for rows without an id. -/
def saveRows (ids : Nat → String) : Nat → List Row → List CsvRow
  | _, [] => []
  | i, r :: rs => writeRow (saveNormRow (ids i) r) :: saveRows ids (i + 1) rs

/-- `save_data` from `app.py`: normalize every row and write the table. -/
def save_data (ids : Nat → String) (rs : List Row) : List CsvRow :=
  saveRows ids 0 rs

/-! ### Merge/Upsert (`_make_keycols` and the Merge branch of the upload tab) -/

/-- Join the normalized key parts with the `"::"` separator, as
`"::".join(...)` does. -/
def joinKey : List String → String
  | [] => ""
  | [s] => s
  | s :: rest => s ++ "::" ++ joinKey rest

/-- One part of the composite key: `str(x).strip().lower()`. -/
def normKeyPart (v : Value) : String :=
  String.mk ((stripWS (pyStr v).data).map lowerC)

/-- `_make_keycols` from `app.py`, per row: the case-insensitive composite
key over the chosen key columns. -/
def _make_keycols (keys : List Field) (r : Row) : String :=
  joinKey (keys.map (fun k => normKeyPart (getCol r k)))

/-- `_nonempty` from the Merge branch: missing values (`pd.isna` is true of
both `NaN` and `pd.NA`) are empty, a string is nonempty when it has a
non-whitespace character, numbers are nonempty. -/
def _nonempty (v : Value) : Bool :=
  match v with
  | .na => false
  | .pdNA => false
  | .str s => !(stripWS s.data).isEmpty
  | _ => true

/-- The per-field conflict rule of the Merge branch: with "prefer uploaded"
a non-empty uploaded value that renders differently overwrites; with
"prefer existing" only an empty existing field is filled. -/
def mergeField (preferUploaded : Bool) (uval cval : Value) : Value :=
  if preferUploaded then
    if _nonempty uval && (pyStr uval != pyStr cval) then uval else cval
  else
    if (!_nonempty cval) && _nonempty uval then uval else cval

/-- Apply the conflict rule to every column of `EXPECTED_COLS`
(`for c in EXPECTED_COLS: ...`); the row id is never touched. -/
def mergeRow (preferUploaded : Bool) (cRow uRow : Row) : Row :=
  EXPECTED_COLS.foldl
    (fun acc c => setCol acc c (mergeField preferUploaded (getCol uRow c) (getCol acc c)))
    cRow

/-- Index of the first occurrence of `k`, as `key_to_idx[k][0]` finds it. -/
def firstMatch (k : String) : List String → Option Nat
  | [] => none
  | k' :: rest => if k' = k then some 0 else (firstMatch k rest).map (· + 1)

/-- Replace the element at position `i` by `f` of it (in-place `cur.at`
assignment). -/
def updateAt : List Row → Nat → (Row → Row) → List Row
  | [], _, _ => []
  | r :: rs, 0, f => f r :: rs
  | r :: rs, n + 1, f => r :: updateAt rs n f

/-- One iteration of the Merge loop over the uploaded rows: matched rows
update the first existing row with that key, unmatched rows are appended
with a fresh id; the state also counts insertions so fresh ids stay
distinct. -/
def mergeStep (preferUploaded : Bool) (curKeys : List String)
    (keys : List Field) (ids : Nat → String) :
    List Row × Nat → Row → List Row × Nat :=
  fun st urow =>
    match firstMatch (_make_keycols keys urow) curKeys with
    | some i => (updateAt st.1 i (fun c => mergeRow preferUploaded c urow), st.2)
    | none => (st.1 ++ [{ urow with row_id := some (ids st.2) }], st.2 + 1)

/-- The Merge/Upsert branch of the upload tab: keys of the existing table
are computed once up front (`key_to_idx`), then every uploaded row either
updates its first match or is inserted. -/
def applyMerge (preferUploaded : Bool) (keys : List Field) (ids : Nat → String)
    (cur up : List Row) : List Row :=
  (up.foldl (mergeStep preferUploaded (cur.map (_make_keycols keys)) keys ids) (cur, 0)).1

/-! ### Comparison targets and side conditions for the round-trip claim -/

/-- Written from the spec's round-trip sentence: the field values a record
keeps "modulo type normalization" — text fields as (normalized) strings,
bottle count as integer, carbon count as integer-or-absent, and a row id
assigned where missing.  Built from the program's own normalizers so the
round-trip theorem can compare `load_data ∘ save_data` against it. -/
def specNormalizedRow (id : String) (r : Row) : Row :=
  ⟨textNorm r.name, textNorm r.cas, toNumeric r.carbons, textNorm r.distributor,
   textNorm r.container_size, textNorm r.state, textNorm r.location,
   bottlesNorm r.bottles, textNorm r.storage_conditions, textNorm r.hazards,
   textNorm r.sds_link, some (r.row_id.getD id)⟩

/-- The spec's normalized record set, ids assigned from position `i` on. -/
def specNormalized (ids : Nat → String) : Nat → List Row → List Row
  | _, [] => []
  | i, r :: rs => specNormalizedRow (ids i) r :: specNormalized ids (i + 1) rs

/-- Tokens `read_csv` may additionally convert to a boolean, an infinity or
a `NaN` (its parsers compare these forms case-insensitively), checked on the
stripped, lowercased string.  The check is deliberately generous: excluding
a string from the stability predicates below only narrows a hypothesis and
never weakens soundness. -/
def csvConverted (s : String) : Bool :=
  let t := String.mk ((stripWS s.data).map lowerC)
  t == "true" || t == "false"
    || t == "inf" || t == "+inf" || t == "-inf"
    || t == "infinity" || t == "+infinity" || t == "-infinity"
    || t == "nan" || t == "+nan" || t == "-nan"

/-- A raw string survives the CSV layer unchanged: it is no NA token, no
boolean/infinity/NaN token, and no decimal literal (exponent forms
included, via `parseDecimal`). -/
def stableTextString (s : String) : Bool :=
  !(naValues.contains s) && !(csvConverted s) && (parseDecimal s).isNone

/-- A text cell whose normalized string reads back as itself from CSV:
empty, or a CSV-stable string. -/
def textStableOK (v : Value) : Bool :=
  match textNorm v with
  | .str s => (s == "") || stableTextString s
  | _ => true

/-- A carbons string cell whose `to_numeric` outcome the CSV layer
preserves: an integer literal, or a string that stays text (or an NA token)
after writing — boolean/infinity/NaN tokens, which `read_csv` would turn
into non-missing non-integer values, are excluded. -/
def carbStrOK (s : String) : Bool :=
  match parseDecimal s with
  | some (.int _) => true
  | some _ => false
  | none => !(csvConverted s)

/-- A carbons cell that normalizes to integer-or-absent and survives the
CSV layer (the only carbons shapes the round-trip claim speaks about). -/
def carbOK : Value → Bool
  | .na => true
  | .pdNA => true
  | .int _ => true
  | .flt _ _ => false
  | .str s => carbStrOK s

/-- A string free of the colon used in the `"::"` key separator; separator
collisions are impossible for such key parts. -/
def colonFree (s : String) : Bool := !s.data.contains ':'

/-! ### Concrete rows used by witnesses and counterexamples -/

/-- The spec's example existing record: Acetone on Shelf A with 2 bottles. -/
def acetoneExisting : Row :=
  ⟨.str "Acetone", .str "", .na, .str "", .str "", .str "", .str "Shelf A",
   .int 2, .str "", .str "", .str "", some "row-1"⟩

/-- The spec's example uploaded record: Acetone on Shelf A with 5 bottles. -/
def acetoneUploaded : Row :=
  ⟨.str "Acetone", .str "", .na, .str "", .str "", .str "", .str "Shelf A",
   .int 5, .str "", .str "", .str "", none⟩

/-- An uploaded row matching nothing: Benzene on Shelf B. -/
def benzeneUploaded : Row :=
  ⟨.str "Benzene", .str "", .na, .str "", .str "", .str "", .str "Shelf B",
   .int 3, .str "", .str "", .str "", none⟩

/-- Key-collision row: name `"a::b"`, location `"c"`. -/
def collideRow1 : Row :=
  ⟨.str "a::b", .str "", .na, .str "", .str "", .str "", .str "c",
   .int 1, .str "", .str "", .str "", none⟩

/-- Key-collision row: name `"a"`, location `"b::c"`. -/
def collideRow2 : Row :=
  ⟨.str "a", .str "", .na, .str "", .str "", .str "", .str "b::c",
   .int 1, .str "", .str "", .str "", none⟩

/-- A record whose name is the numeric-looking string `"05"`. -/
def leadingZeroRow : Row :=
  ⟨.str "05", .str "", .na, .str "", .str "", .str "", .str "", .int 1,
   .str "", .str "", .str "", some "id0"⟩

/-- A record with a zero bottle count. -/
def zeroBottlesRow : Row :=
  ⟨.str "Acetone", .str "", .na, .str "", .str "", .str "", .str "Shelf A",
   .int 0, .str "", .str "", .str "", some "row-1"⟩

/-- A well-behaved record used to witness the round-trip theorem. -/
def roundtripWitnessRow : Row :=
  ⟨.str "Acetone", .str "67-64-1", .int 3, .str "Sigma", .str "500 mL",
   .str "Liquid", .str "Shelf A", .int 2, .str "Cool, dry", .str "H225",
   .str "", some "row-1"⟩

/-- A second existing record with the same composite key as
`acetoneExisting` but a different bottle count. -/
def acetoneDuplicate : Row :=
  ⟨.str "Acetone", .str "", .na, .str "", .str "", .str "", .str "Shelf A",
   .int 7, .str "", .str "", .str "", some "row-2"⟩

/-- A record whose cells are all missing. -/
def naRow : Row :=
  ⟨.na, .na, .na, .na, .na, .na, .na, .na, .na, .na, .na, none⟩

/-- A record as `_ensure_schema` sees it when the uploaded file lacks the
`name` column: that cell is the `pd.NA` fill. -/
def missingColRow : Row :=
  ⟨.pdNA, .str "67-64-1", .na, .str "", .str "", .str "", .str "Shelf A",
   .int 1, .str "", .str "", .str "", none⟩

end ChemInventory

/-! ## Lemmas and claim theorems -/

namespace ChemInventory

theorem natToDigitsAux_stable : ∀ n f₁ f₂, n < f₁ → n < f₂ →
    natToDigitsAux f₁ n = natToDigitsAux f₂ n := by
  intro n
  induction n using Nat.strong_induction_on with
  | _ n ih =>
    intro f₁ f₂ h₁ h₂
    cases f₁ with
    | zero => omega
    | succ g₁ =>
      cases f₂ with
      | zero => omega
      | succ g₂ =>
        simp only [natToDigitsAux]
        by_cases h : n < 10
        · simp [h]
        · simp only [if_neg h]
          have hd : n / 10 < n := Nat.div_lt_self (by omega) (by omega)
          rw [ih (n / 10) hd g₁ g₂ (by omega) (by omega)]

theorem natToDigits_eq (n : Nat) :
    natToDigits n = if n < 10 then [Nat.digitChar n]
      else natToDigits (n / 10) ++ [Nat.digitChar (n % 10)] := by
  show natToDigitsAux (n + 1) n = _
  conv_lhs => rw [natToDigitsAux]
  by_cases h : n < 10
  · simp [h]
  · simp only [if_neg h]
    have hd : n / 10 < n := Nat.div_lt_self (by omega) (by omega)
    congr 1
    exact natToDigitsAux_stable (n / 10) n (n / 10 + 1) (by omega) (by omega)

theorem digitChar_isDigit : ∀ n, n < 10 → isDigitC (Nat.digitChar n) = true := by decide

theorem charVal_digitChar : ∀ n, n < 10 → charVal (Nat.digitChar n) = n := by decide

theorem natToDigits_digits (n : Nat) : ∀ c ∈ natToDigits n, isDigitC c = true := by
  induction n using Nat.strong_induction_on with
  | _ n ih =>
    rw [natToDigits_eq]
    by_cases h : n < 10
    · intro c hc
      simp [h] at hc
      subst hc
      exact digitChar_isDigit n h
    · simp only [if_neg h]
      intro c hc
      rcases List.mem_append.1 hc with h1 | h1
      · exact ih (n / 10) (Nat.div_lt_self (by omega) (by omega)) c h1
      · simp at h1
        subst h1
        exact digitChar_isDigit (n % 10) (Nat.mod_lt _ (by omega))

theorem natToDigits_ne_nil (n : Nat) : natToDigits n ≠ [] := by
  rw [natToDigits_eq]
  by_cases h : n < 10 <;> simp [h]

theorem digitsVal_from (l : List Char) :
    ∀ a, l.foldl (fun a c => a * 10 + charVal c) a = a * 10 ^ l.length + digitsVal l := by
  induction l with
  | nil => intro a; simp [digitsVal]
  | cons c t ih =>
    intro a
    simp only [List.foldl_cons, List.length_cons, digitsVal]
    rw [ih (a * 10 + charVal c), ih (0 * 10 + charVal c)]
    ring

theorem digitsVal_append (l₁ l₂ : List Char) :
    digitsVal (l₁ ++ l₂) = digitsVal l₁ * 10 ^ l₂.length + digitsVal l₂ := by
  unfold digitsVal
  rw [List.foldl_append, digitsVal_from]
  rfl

theorem digitsVal_natToDigits (n : Nat) : digitsVal (natToDigits n) = n := by
  induction n using Nat.strong_induction_on with
  | _ n ih =>
    rw [natToDigits_eq]
    by_cases h : n < 10
    · simp only [if_pos h, digitsVal, List.foldl_cons, List.foldl_nil]
      rw [charVal_digitChar n h]
      omega
    · rw [if_neg h, digitsVal_append, ih (n / 10) (Nat.div_lt_self (by omega) (by omega))]
      simp only [digitsVal, List.length_cons, List.length_nil, List.foldl_cons, List.foldl_nil]
      rw [charVal_digitChar (n % 10) (Nat.mod_lt _ (by omega))]
      omega

end ChemInventory

namespace ChemInventory

theorem dropWhile_no {p : Char → Bool} (l : List Char) (h : ∀ c ∈ l, p c = false) :
    l.dropWhile p = l := by
  cases l with
  | nil => rfl
  | cons c t => simp [List.dropWhile_cons, h c (by simp)]

theorem stripWS_no (l : List Char) (h : ∀ c ∈ l, isWsC c = false) : stripWS l = l := by
  unfold stripWS
  rw [dropWhile_no l h, dropWhile_no l.reverse (fun c hc => h c (List.mem_reverse.1 hc)),
    List.reverse_reverse]

theorem digit_not_ws (c : Char) (h : isDigitC c = true) : isWsC c = false := by
  simp only [isDigitC, Bool.and_eq_true, decide_eq_true_eq] at h
  simp only [isWsC, Bool.or_eq_false_iff, beq_eq_false_iff_ne, ne_eq]
  omega

theorem splitOnDot_no_dot (l : List Char) (h : '.' ∉ l) : splitOnDot l = (l, none) := by
  induction l with
  | nil => rfl
  | cons c t ih =>
    have hc : ¬(c = '.') := fun e => h (by simp [e])
    have ht : '.' ∉ t := fun hm => h (by simp [hm])
    simp [splitOnDot, hc, ih ht]

theorem digits_no_dot (l : List Char) (h : ∀ c ∈ l, isDigitC c = true) : '.' ∉ l := by
  intro hm
  have := h '.' hm
  simp [isDigitC] at this

theorem string_data_inj (s t : String) (h : s.data = t.data) : s = t := by
  cases s
  cases t
  exact congrArg String.mk h

theorem digit_not_exp (c : Char) (h : isDigitC c = true) : ¬(c = 'e' ∨ c = 'E') := by
  intro he
  rcases he with rfl | rfl <;> exact absurd h (by decide)

theorem splitOnExp_no_e (l : List Char) (h : ∀ c ∈ l, ¬(c = 'e' ∨ c = 'E')) :
    splitOnExp l = (l, none) := by
  induction l with
  | nil => rfl
  | cons c t ih =>
    have hc := h c (by simp)
    simp [splitOnExp, hc, ih (fun c' hc' => h c' (by simp [hc']))]

theorem parseUnsigned_digits (l : List Char) (hne : l ≠ [])
    (hd : ∀ c ∈ l, isDigitC c = true) :
    parseUnsigned l = some (.int (Int.ofNat (digitsVal l))) := by
  unfold parseUnsigned
  rw [splitOnExp_no_e l (fun c hc => digit_not_exp c (hd c hc))]
  show parseSplit l none = _
  simp only [parseSplit]
  rw [splitOnDot_no_dot l (digits_no_dot l hd)]
  have h1 : l.isEmpty = false := by simp [List.isEmpty_iff, hne]
  have h2 : l.all isDigitC = true := List.all_eq_true.2 hd
  simp [parseParts, h1, h2]

theorem intToString_nonneg (n : Int) (h : 0 ≤ n) :
    intToString n = String.mk (natToDigits n.natAbs) := by
  unfold intToString
  rw [if_neg (by omega)]
  apply string_data_inj
  simp [String.data_append]

theorem parseDecimal_cons (s : String) (c : Char) (t : List Char)
    (h : stripWS s.data = c :: t) :
    parseDecimal s = (if c = '-' then (parseUnsigned t).map negValue
      else if c = '+' then parseUnsigned t else parseUnsigned (c :: t)) := by
  unfold parseDecimal
  rw [h]

theorem parseDecimal_intToString (n : Int) : parseDecimal (intToString n) = some (.int n) := by
  rcases le_or_lt 0 n with hn | hn
  · rw [intToString_nonneg n hn]
    rcases hl : natToDigits n.natAbs with _ | ⟨c, t⟩
    · exact absurd hl (natToDigits_ne_nil _)
    · have hdig : ∀ ch ∈ c :: t, isDigitC ch = true := by
        rw [← hl]
        exact natToDigits_digits _
      have hcd : isDigitC c = true := hdig c (by simp)
      have hc1 : ¬(c = '-') := by
        intro e; subst e; simp [isDigitC] at hcd
      have hc2 : ¬(c = '+') := by
        intro e; subst e; simp [isDigitC] at hcd
      rw [parseDecimal_cons _ c t
          (stripWS_no _ (fun ch hc => digit_not_ws ch (hdig ch hc))),
        if_neg hc1, if_neg hc2, ← hl,
        parseUnsigned_digits _ (natToDigits_ne_nil _) (natToDigits_digits _),
        digitsVal_natToDigits]
      have hcast : Int.ofNat n.natAbs = n := by
        rw [Int.ofNat_eq_natCast]
        omega
      rw [hcast]
  · have hdata : (intToString n).data = '-' :: natToDigits n.natAbs := by
      unfold intToString
      rw [if_pos hn, String.data_append]
      rfl
    have hws : ∀ c ∈ '-' :: natToDigits n.natAbs, isWsC c = false := by
      intro c hc
      rcases List.mem_cons.1 hc with rfl | hc
      · rfl
      · exact digit_not_ws c (natToDigits_digits _ c hc)
    rw [parseDecimal_cons _ '-' (natToDigits n.natAbs) (by rw [hdata]; exact stripWS_no _ hws),
      if_pos rfl,
      parseUnsigned_digits _ (natToDigits_ne_nil _) (natToDigits_digits _),
      digitsVal_natToDigits]
    simp only [Option.map_some', negValue]
    have hcast : -Int.ofNat n.natAbs = n := by
      rw [Int.ofNat_eq_natCast]
      omega
    rw [hcast]

theorem naValues_unparseable : ∀ s ∈ naValues, parseDecimal s = none := by decide

theorem contains_iff_mem (l : List String) (s : String) : l.contains s = true ↔ s ∈ l := by
  simp [List.contains, List.elem_iff]

theorem readCell_intToString (n : Int) : readCell (intToString n) = .int n := by
  have hnc : naValues.contains (intToString n) = false := by
    by_contra h
    simp only [Bool.not_eq_false] at h
    have := naValues_unparseable _ ((contains_iff_mem _ _).1 h)
    rw [parseDecimal_intToString] at this
    cases this
  unfold readCell
  rw [if_neg (by rw [hnc]; exact Bool.false_ne_true), parseDecimal_intToString]

theorem readCell_stable (s : String) (h : stableTextString s = true) : readCell s = .str s := by
  unfold stableTextString at h
  simp only [Bool.and_eq_true, Bool.not_eq_true', Option.isNone_iff_eq_none] at h
  unfold readCell
  rw [if_neg (by rw [h.1.1]; exact Bool.false_ne_true), h.2]

end ChemInventory

namespace ChemInventory

theorem canonFltNat_step (m e : Nat) (h : m % 10 = 0) :
    canonFltNat m (e + 2) = canonFltNat (m / 10) (e + 1) := by
  simp [canonFltNat, h]

theorem canonFltNat_spec : ∀ e m, ∃ m' e', canonFltNat m e = .flt (Int.ofNat m') e'
    ∧ 1 ≤ e' ∧ (e' = 1 ∨ m' % 10 ≠ 0) := by
  intro e
  induction e using Nat.strong_induction_on with
  | _ e ih =>
    intro m
    match e with
    | 0 => exact ⟨m * 10, 1, rfl, le_refl 1, Or.inl rfl⟩
    | 1 => exact ⟨m, 1, rfl, le_refl 1, Or.inl rfl⟩
    | e + 2 =>
      by_cases h : m % 10 = 0
      · rw [canonFltNat_step m e h]
        exact ih (e + 1) (by omega) (m / 10)
      · refine ⟨m, e + 2, ?_, by omega, Or.inr h⟩
        simp [canonFltNat, h]

theorem canonFltNat_fixed (m e : Nat) (he : 1 ≤ e) (hc : e = 1 ∨ m % 10 ≠ 0) :
    canonFltNat m e = .flt (Int.ofNat m) e := by
  match e with
  | 1 => rfl
  | e + 2 =>
    have hm : m % 10 ≠ 0 := by
      rcases hc with h | h
      · omega
      · exact h
    simp [canonFltNat, hm]

theorem canonFlt_self (m : Int) (e : Nat) (he : 1 ≤ e) (hc : e = 1 ∨ m.natAbs % 10 ≠ 0) :
    canonFlt m e = .flt m e := by
  unfold canonFlt
  by_cases hm : m < 0
  · rw [if_pos hm, canonFltNat_fixed m.natAbs e he hc]
    show Value.flt (-Int.ofNat m.natAbs) e = .flt m e
    have h2 : -Int.ofNat m.natAbs = m := by
      rw [Int.ofNat_eq_natCast]
      omega
    rw [h2]
  · rw [if_neg hm, canonFltNat_fixed m.natAbs e he hc]
    have h2 : Int.ofNat m.natAbs = m := by
      rw [Int.ofNat_eq_natCast]
      omega
    rw [h2]

theorem canonFlt_canonical (m : Int) (e : Nat) :
    ∃ m' e', canonFlt m e = .flt m' e' ∧ 1 ≤ e' ∧ (e' = 1 ∨ m'.natAbs % 10 ≠ 0) := by
  obtain ⟨k, e', hk, he, hc⟩ := canonFltNat_spec e m.natAbs
  unfold canonFlt
  by_cases hm : m < 0
  · refine ⟨-Int.ofNat k, e', ?_, he, ?_⟩
    · rw [if_pos hm, hk]
      rfl
    · rcases hc with h | h
      · exact Or.inl h
      · refine Or.inr ?_
        simpa [Int.ofNat_eq_natCast] using h
  · refine ⟨Int.ofNat k, e', ?_, he, ?_⟩
    · rw [if_neg hm, hk]
    · rcases hc with h | h
      · exact Or.inl h
      · refine Or.inr ?_
        simpa [Int.ofNat_eq_natCast] using h

theorem toNumeric_canonFlt (m : Int) (e : Nat) :
    toNumeric (canonFlt m e) = canonFlt m e := by
  obtain ⟨m', e', h, he, hc⟩ := canonFlt_canonical m e
  rw [h]
  show canonFlt m' e' = .flt m' e'
  exact canonFlt_self m' e' he hc

theorem toNumeric_negValue_canonFlt (m : Int) (e : Nat) :
    toNumeric (negValue (canonFlt m e)) = negValue (canonFlt m e) := by
  obtain ⟨m', e', h, he, hc⟩ := canonFlt_canonical m e
  rw [h]
  show canonFlt (-m') e' = .flt (-m') e'
  refine canonFlt_self (-m') e' he ?_
  simpa using hc

theorem parseSplit_parts_eq (m ip : List Char) (fpo : Option (List Char))
    (hs : splitOnDot m = (ip, fpo)) : parseSplit m none = parseParts ip fpo := by
  simp only [parseSplit]
  rw [hs]

theorem parseSplit_exp_eq (m ip : List Char) (fpo : Option (List Char)) (ex : List Char)
    (hs : splitOnDot m = (ip, fpo)) : parseSplit m (some ex) = parseWithExp ip fpo ex := by
  simp only [parseSplit]
  rw [hs]

theorem parseParts_fixed (ip : List Char) (fpo : Option (List Char)) (v : Value)
    (h : parseParts ip fpo = some v) :
    toNumeric v = v ∧ toNumeric (negValue v) = negValue v := by
  match fpo with
  | none =>
    simp only [parseParts] at h
    by_cases hb : ((!ip.isEmpty) && ip.all isDigitC) = true
    · rw [if_pos hb] at h
      have hv := Option.some.inj h
      subst hv
      exact ⟨rfl, rfl⟩
    · rw [if_neg hb] at h
      cases h
  | some fp =>
    simp only [parseParts] at h
    by_cases hb : ((!fp.contains '.') && (!ip.isEmpty || !fp.isEmpty)
        && ip.all isDigitC && fp.all isDigitC) = true
    · rw [if_pos hb] at h
      have hv := Option.some.inj h
      subst hv
      exact ⟨toNumeric_canonFlt _ _, toNumeric_negValue_canonFlt _ _⟩
    · rw [if_neg hb] at h
      cases h

theorem parseExpCore_fixed (ip fp : List Char) (xo : Option Int) (v : Value)
    (h : parseExpCore ip fp xo = some v) :
    toNumeric v = v ∧ toNumeric (negValue v) = negValue v := by
  match xo with
  | none =>
    simp only [parseExpCore] at h
    cases h
  | some x =>
    simp only [parseExpCore] at h
    by_cases hb : ((!fp.contains '.') && (!ip.isEmpty || !fp.isEmpty)
        && ip.all isDigitC && fp.all isDigitC) = true
    · rw [if_pos hb] at h
      by_cases hd : (0 : Int) ≤ x - (fp.length : Int)
      · rw [if_pos hd] at h
        have hv := Option.some.inj h
        subst hv
        exact ⟨toNumeric_canonFlt _ _, toNumeric_negValue_canonFlt _ _⟩
      · rw [if_neg hd] at h
        have hv := Option.some.inj h
        subst hv
        exact ⟨toNumeric_canonFlt _ _, toNumeric_negValue_canonFlt _ _⟩
    · rw [if_neg hb] at h
      cases h

theorem parseUnsigned_fixed (l : List Char) (v : Value) (h : parseUnsigned l = some v) :
    toNumeric v = v ∧ toNumeric (negValue v) = negValue v := by
  rcases hse : splitOnExp l with ⟨m, exo⟩
  have he : parseUnsigned l = parseSplit m exo := by
    unfold parseUnsigned
    rw [hse]
  rw [he] at h
  rcases hs : splitOnDot m with ⟨ip, fpo⟩
  match exo with
  | none =>
    rw [parseSplit_parts_eq m ip fpo hs] at h
    exact parseParts_fixed ip fpo v h
  | some ex =>
    rw [parseSplit_exp_eq m ip fpo ex hs] at h
    unfold parseWithExp at h
    exact parseExpCore_fixed ip (fpo.getD []) (parseExp ex) v h

theorem parseDecimal_fixed (s : String) (v : Value) (h : parseDecimal s = some v) :
    toNumeric v = v := by
  rcases hs : stripWS s.data with _ | ⟨c, t⟩
  · rw [parseDecimal, hs] at h
    cases h
  · rw [parseDecimal_cons s c t hs] at h
    by_cases h1 : c = '-'
    · rw [if_pos h1] at h
      rcases Option.map_eq_some'.1 h with ⟨w, hw, rfl⟩
      exact (parseUnsigned_fixed t w hw).2
    · rw [if_neg h1] at h
      by_cases h2 : c = '+'
      · rw [if_pos h2] at h
        exact (parseUnsigned_fixed t v h).1
      · rw [if_neg h2] at h
        exact (parseUnsigned_fixed (c :: t) v h).1

theorem toNumeric_str (s : String) :
    toNumeric (.str s) = (match parseDecimal s with | some v => v | none => .na) := rfl

theorem toNumeric_idem (v : Value) : toNumeric (toNumeric v) = toNumeric v := by
  cases v with
  | na => rfl
  | pdNA => rfl
  | str s =>
    rcases hp : parseDecimal s with _ | w
    · have h1 : toNumeric (.str s) = .na := by rw [toNumeric_str, hp]
      rw [h1]
      rfl
    · have h1 : toNumeric (.str s) = w := by rw [toNumeric_str, hp]
      rw [h1]
      exact parseDecimal_fixed s w hp
  | int n => rfl
  | flt m e => exact toNumeric_canonFlt m e

end ChemInventory

namespace ChemInventory

theorem textNorm_eq (v : Value) :
    textNorm v = .str (if pyStr v = "nan" then "" else pyStr v) := rfl

theorem textNorm_output_ne_nan (v : Value) :
    (if pyStr v = "nan" then "" else pyStr v) ≠ "nan" := by
  by_cases h : pyStr v = "nan"
  · rw [if_pos h]
    decide
  · rw [if_neg h]
    exact h

theorem textNorm_idem (v : Value) : textNorm (textNorm v) = textNorm v := by
  rw [textNorm_eq v, textNorm_eq (.str _)]
  have h := textNorm_output_ne_nan v
  show Value.str (if (if pyStr v = "nan" then "" else pyStr v) = "nan" then ""
    else (if pyStr v = "nan" then "" else pyStr v)) = _
  rw [if_neg h]

theorem bottlesNorm_int (n : Int) : bottlesNorm (.int n) = .int n := rfl

theorem bottlesNorm_idem (v : Value) : bottlesNorm (bottlesNorm v) = bottlesNorm v :=
  bottlesNorm_int (bottlesInt v)

theorem ensureSchemaRow_idem (r : Row) :
    ensureSchemaRow (ensureSchemaRow r) = ensureSchemaRow r := by
  simp only [ensureSchemaRow, textNorm_idem, toNumeric_idem, bottlesNorm_idem]

theorem ensureSchemaRow_isStr_text (r : Row) (f : Field) (hf : f ∈ textCols) :
    ∃ s, getCol (ensureSchemaRow r) f = .str s := by
  simp only [textCols, List.mem_cons, List.mem_singleton] at hf
  rcases hf with rfl | rfl | rfl | rfl | rfl | rfl | rfl | rfl | rfl | h
  all_goals first
    | exact ⟨_, rfl⟩
    | cases h

end ChemInventory

namespace ChemInventory

theorem getCol_mergeRow (p : Bool) (c u : Row) (f : Field) :
    getCol (mergeRow p c u) f = mergeField p (getCol u f) (getCol c f) := by
  cases f <;> rfl

theorem mergeRow_row_id (p : Bool) (c u : Row) : (mergeRow p c u).row_id = c.row_id := by
  rfl

theorem firstMatch_lt (k : String) : ∀ (l : List String) (i : Nat),
    firstMatch k l = some i → i < l.length := by
  intro l
  induction l with
  | nil => intro i h; cases h
  | cons a t ih =>
    intro i h
    simp only [firstMatch] at h
    split at h
    · cases h
      simp
    · rcases Option.map_eq_some'.1 h with ⟨j, hj, rfl⟩
      have := ih j hj
      simp
      omega

theorem firstMatch_first (k : String) : ∀ (l : List String) (i : Nat),
    firstMatch k l = some i → ∀ j, j < i → l[j]? ≠ some k := by
  intro l
  induction l with
  | nil => intro i h; cases h
  | cons a t ih =>
    intro i h j hj
    simp only [firstMatch] at h
    split at h
    · cases h
      omega
    · rcases Option.map_eq_some'.1 h with ⟨j', hj', rfl⟩
      rename_i ha
      cases j with
      | zero =>
        simp only [List.getElem?_cons_zero]
        intro e
        exact ha (Option.some.inj e)
      | succ jj =>
        simp only [List.getElem?_cons_succ]
        exact ih j' hj' jj (by omega)

theorem firstMatch_isNone (k : String) : ∀ l : List String,
    (firstMatch k l).isNone = !(l.contains k) := by
  intro l
  induction l with
  | nil => rfl
  | cons a t ih =>
    by_cases h : a = k
    · simp [firstMatch, h, List.contains_cons]
    · have hb : (k == a) = false := beq_eq_false_iff_ne.2 (fun e => h e.symm)
      simp only [firstMatch, if_neg h, List.contains_cons, hb, Bool.false_or]
      rw [← ih]
      cases firstMatch k t <;> rfl

theorem updateAt_length : ∀ (l : List Row) (i : Nat) (f : Row → Row),
    (updateAt l i f).length = l.length := by
  intro l
  induction l with
  | nil => intro i f; rfl
  | cons r rs ih =>
    intro i f
    cases i with
    | zero => rfl
    | succ n => simp [updateAt, ih]

theorem updateAt_get_self : ∀ (l : List Row) (i : Nat) (f : Row → Row),
    (updateAt l i f)[i]? = l[i]?.map f := by
  intro l
  induction l with
  | nil => intro i f; cases i <;> rfl
  | cons r rs ih =>
    intro i f
    cases i with
    | zero => simp [updateAt]
    | succ n => simp [updateAt, ih]

theorem updateAt_get_ne : ∀ (l : List Row) (i j : Nat) (f : Row → Row), j ≠ i →
    (updateAt l i f)[j]? = l[j]? := by
  intro l
  induction l with
  | nil => intro i j f h; cases i <;> rfl
  | cons r rs ih =>
    intro i j f h
    cases i with
    | zero =>
      cases j with
      | zero => exact absurd rfl h
      | succ m => rfl
    | succ n =>
      cases j with
      | zero => simp [updateAt]
      | succ m => simp [updateAt, ih n m f (by omega)]

theorem applyMerge_single_matched (p : Bool) (keys : List Field) (ids : Nat → String)
    (cur : List Row) (u : Row) (i : Nat)
    (hm : firstMatch (_make_keycols keys u) (cur.map (_make_keycols keys)) = some i) :
    applyMerge p keys ids cur [u] = updateAt cur i (fun c => mergeRow p c u) := by
  unfold applyMerge
  rw [List.foldl_cons, List.foldl_nil]
  unfold mergeStep
  rw [hm]

theorem applyMerge_single_unmatched (p : Bool) (keys : List Field) (ids : Nat → String)
    (cur : List Row) (u : Row)
    (hm : firstMatch (_make_keycols keys u) (cur.map (_make_keycols keys)) = none) :
    applyMerge p keys ids cur [u] = cur ++ [{ u with row_id := some (ids 0) }] := by
  unfold applyMerge
  rw [List.foldl_cons, List.foldl_nil]
  unfold mergeStep
  rw [hm]

theorem mergeFold_length (p : Bool) (keys : List Field) (ids : Nat → String)
    (curKeys : List String) : ∀ (up : List Row) (st : List Row × Nat),
    ((up.foldl (mergeStep p curKeys keys ids) st).1).length
      = st.1.length + up.countP (fun u => (firstMatch (_make_keycols keys u) curKeys).isNone) := by
  intro up
  induction up with
  | nil => intro st; simp
  | cons u t ih =>
    intro st
    rw [List.foldl_cons, ih, List.countP_cons]
    unfold mergeStep
    rcases h : firstMatch (_make_keycols keys u) curKeys with _ | i
    · simp [h]
      omega
    · simp [h, updateAt_length]

end ChemInventory

namespace ChemInventory

theorem colonFree_not_mem (s : String) (h : colonFree s = true) : ':' ∉ s.data := by
  unfold colonFree at h
  simp only [Bool.not_eq_true'] at h
  intro hm
  have hc : s.data.contains ':' = true := by
    simp [List.contains, List.elem_iff]
    exact hm
  rw [hc] at h
  cases h

theorem append_sep_inj : ∀ (l₁ l₂ t₁ t₂ : List Char), ':' ∉ l₁ → ':' ∉ l₂ →
    l₁ ++ ':' :: t₁ = l₂ ++ ':' :: t₂ → l₁ = l₂ ∧ t₁ = t₂ := by
  intro l₁
  induction l₁ with
  | nil =>
    intro l₂ t₁ t₂ h1 h2 he
    cases l₂ with
    | nil => simpa using he
    | cons b bs =>
      simp only [List.nil_append, List.cons_append, List.cons.injEq] at he
      exact absurd (he.1.symm ▸ List.mem_cons_self b bs : (':' : Char) ∈ b :: bs)
        (by rw [← he.1]; exact fun hm => h2 (he.1 ▸ hm))
  | cons a as ih =>
    intro l₂ t₁ t₂ h1 h2 he
    cases l₂ with
    | nil =>
      simp only [List.cons_append, List.nil_append, List.cons.injEq] at he
      exact absurd (he.1 ▸ List.mem_cons_self a as) (fun hm => h1 (he.1 ▸ List.mem_cons_self a as))
    | cons b bs =>
      simp only [List.cons_append, List.cons.injEq] at he
      have h1' : ':' ∉ as := fun hm => h1 (List.mem_cons_of_mem a hm)
      have h2' : ':' ∉ bs := fun hm => h2 (List.mem_cons_of_mem b hm)
      obtain ⟨hab, hrest⟩ := he
      obtain ⟨hl, ht⟩ := ih bs t₁ t₂ h1' h2' hrest
      exact ⟨by rw [hab, hl], ht⟩

end ChemInventory

namespace ChemInventory

theorem joinKey_data_cons (a : String) (r : String) (rest : List String) :
    joinKey (a :: r :: rest) = a ++ "::" ++ joinKey (r :: rest) := rfl

theorem joinKey_inj : ∀ (p₁ p₂ : List String), p₁.length = p₂.length →
    (∀ s ∈ p₁, colonFree s = true) → (∀ s ∈ p₂, colonFree s = true) →
    joinKey p₁ = joinKey p₂ → p₁ = p₂ := by
  intro p₁
  induction p₁ with
  | nil =>
    intro p₂ hl h1 h2 he
    cases p₂ with
    | nil => rfl
    | cons b bs => simp at hl
  | cons a as ih =>
    intro p₂ hl h1 h2 he
    cases p₂ with
    | nil => simp at hl
    | cons b bs =>
      cases as with
      | nil =>
        cases bs with
        | nil =>
          show [a] = [b]
          rw [show joinKey [a] = a from rfl, show joinKey [b] = b from rfl] at he
          rw [he]
        | cons b' bs' => simp at hl
      | cons a' as' =>
        cases bs with
        | nil => simp at hl
        | cons b' bs' =>
          rw [joinKey_data_cons, joinKey_data_cons] at he
          have hdata : a.data ++ ':' :: ':' :: (joinKey (a' :: as')).data
              = b.data ++ ':' :: ':' :: (joinKey (b' :: bs')).data := by
            have := congrArg String.data he
            simpa [String.data_append] using this
          have hfa : ':' ∉ a.data := colonFree_not_mem a (h1 a (by simp))
          have hfb : ':' ∉ b.data := colonFree_not_mem b (h2 b (by simp))
          obtain ⟨hab, hrest⟩ := append_sep_inj a.data b.data _ _ hfa hfb hdata
          have htail : (joinKey (a' :: as')).data = (joinKey (b' :: bs')).data := by
            simpa using hrest
          have hj : joinKey (a' :: as') = joinKey (b' :: bs') :=
            string_data_inj _ _ htail
          have hleft : a = b := string_data_inj _ _ hab
          have := ih (b' :: bs') (by simpa using hl)
            (fun s hs => h1 s (List.mem_cons_of_mem a hs))
            (fun s hs => h2 s (List.mem_cons_of_mem b hs)) hj
          rw [hleft, this]

theorem map_eq_map_of_mem {α β : Type} (f g : α → β) :
    ∀ l : List α, (∀ x ∈ l, f x = g x) → l.map f = l.map g := by
  intro l
  induction l with
  | nil => intro h; rfl
  | cons a t ih =>
    intro h
    simp only [List.map_cons]
    rw [h a (by simp), ih (fun x hx => h x (List.mem_cons_of_mem a hx))]

theorem map_eq_map_iff_of_mem {α β : Type} (f g : α → β) :
    ∀ l : List α, l.map f = l.map g → ∀ x ∈ l, f x = g x := by
  intro l
  induction l with
  | nil => intro h x hx; cases hx
  | cons a t ih =>
    intro h x hx
    simp only [List.map_cons, List.cons.injEq] at h
    rcases List.mem_cons.1 hx with rfl | hx
    · exact h.1
    · exact ih h.2 x hx

end ChemInventory

namespace ChemInventory

theorem readCell_empty : readCell "" = .na := rfl

theorem textCell_roundtrip (v : Value) (h : textStableOK v = true) :
    textNorm (readCell (writeCell (textNorm v))) = textNorm v := by
  unfold textStableOK at h
  rw [textNorm_eq v] at h ⊢
  set s := if pyStr v = "nan" then "" else pyStr v with hs
  simp only [Bool.or_eq_true, beq_iff_eq] at h
  have hw : writeCell (.str s) = s := rfl
  rw [hw]
  rcases h with h | h
  · rw [h]
    rfl
  · rw [readCell_stable s h]
    have hnan : s ≠ "nan" := by
      intro e
      unfold stableTextString at h
      simp only [Bool.and_eq_true, Bool.not_eq_true'] at h
      have : naValues.contains s = true := by
        rw [e]
        decide
      rw [this] at h
      exact Bool.noConfusion h.1.1
    rw [textNorm_eq (.str s)]
    show Value.str (if s = "nan" then "" else s) = Value.str s
    rw [if_neg hnan]

theorem bottlesCell_roundtrip (v : Value) :
    bottlesNorm (readCell (writeCell (bottlesNorm v))) = bottlesNorm v := by
  unfold bottlesNorm
  have hw : writeCell (.int (bottlesInt v)) = intToString (bottlesInt v) := rfl
  rw [hw, readCell_intToString]
  rfl

theorem toNumeric_na_of_naValue (s : String) (h : naValues.contains s = true) :
    parseDecimal s = none :=
  naValues_unparseable s ((contains_iff_mem _ _).1 h)

theorem carbCell_roundtrip (v : Value) (h : carbOK v = true) :
    toNumeric (readCell (writeCell v)) = toNumeric v := by
  cases v with
  | na => rfl
  | pdNA => rfl
  | int n =>
    have hw : writeCell (.int n) = intToString n := rfl
    rw [hw, readCell_intToString]
  | flt m e => exact Bool.noConfusion h
  | str s =>
    have hw : writeCell (.str s) = s := rfl
    rw [hw]
    rcases hp : parseDecimal s with _ | w
    · have hr : toNumeric (.str s) = .na := by rw [toNumeric_str, hp]
      rw [hr]
      by_cases hna : naValues.contains s = true
      · unfold readCell
        rw [if_pos hna]
        rfl
      · unfold readCell
        rw [if_neg hna, hp]
        exact hr
    · have hr : toNumeric (.str s) = w := by rw [toNumeric_str, hp]
      rw [hr]
      have hna : naValues.contains s = false := by
        by_contra hx
        simp only [Bool.not_eq_false] at hx
        rw [toNumeric_na_of_naValue s hx] at hp
        cases hp
      unfold readCell
      rw [if_neg (by rw [hna]; exact Bool.false_ne_true), hp]
      exact parseDecimal_fixed s w hp

theorem idCell_roundtrip (t : String) (h : stableTextString t = true) :
    pyStr (readCell t) = t := by
  rw [readCell_stable t h]
  rfl

theorem loadRow_writeRow (id : String) (r : Row)
    (ht : ∀ f ∈ textCols, textStableOK (getCol r f) = true)
    (hc : carbOK r.carbons = true)
    (hi : stableTextString (r.row_id.getD id) = true) :
    loadRow (writeRow (saveNormRow id r)) = specNormalizedRow id r := by
  have h1 := textCell_roundtrip r.name (ht .name (by decide))
  have h2 := textCell_roundtrip r.cas (ht .cas (by decide))
  have h3 := textCell_roundtrip r.distributor (ht .distributor (by decide))
  have h4 := textCell_roundtrip r.container_size (ht .container_size (by decide))
  have h5 := textCell_roundtrip r.state (ht .state (by decide))
  have h6 := textCell_roundtrip r.location (ht .location (by decide))
  have h7 := textCell_roundtrip r.storage_conditions (ht .storage_conditions (by decide))
  have h8 := textCell_roundtrip r.hazards (ht .hazards (by decide))
  have h9 := textCell_roundtrip r.sds_link (ht .sds_link (by decide))
  have hb := bottlesCell_roundtrip r.bottles
  have hcar := carbCell_roundtrip r.carbons hc
  have hid := idCell_roundtrip (r.row_id.getD id) hi
  simp only [loadRow, writeRow, saveNormRow, specNormalizedRow, Option.getD_some, Row.mk.injEq]
  exact ⟨h1, h2, hcar, h3, h4, h5, h6, hb, h7, h8, h9, congrArg some hid⟩

end ChemInventory

namespace ChemInventory

/-- C1: in Merge/Upsert with the "prefer uploaded" policy, an uploaded row
matching an existing row on the chosen key columns replaces that row by the
field-merged row, and each field takes the uploaded value exactly when the
uploaded value is non-empty and differs from the existing one (string
comparison, as the code performs it); empty or equal uploaded values leave
the field unchanged. -/
theorem merge_prefer_uploaded_rule (cur : List Row) (u : Row) (keys : List Field)
    (ids : Nat → String) (i : Nat) (ci : Row)
    (hm : firstMatch (_make_keycols keys u) (cur.map (_make_keycols keys)) = some i)
    (hc : cur[i]? = some ci) :
    (applyMerge true keys ids cur [u])[i]? = some (mergeRow true ci u)
    ∧ ∀ f : Field, getCol (mergeRow true ci u) f =
        (if _nonempty (getCol u f) && (pyStr (getCol u f) != pyStr (getCol ci f))
          then getCol u f else getCol ci f) := by
  constructor
  · rw [applyMerge_single_matched true keys ids cur u i hm, updateAt_get_self, hc]
    rfl
  · intro f
    rw [getCol_mergeRow]
    rfl

/-- Witness for C1 at the spec's example: existing Acetone/Shelf A with 2
bottles, uploaded Acetone/Shelf A with 5 bottles, match key [name, location];
"prefer uploaded" makes bottles 5. -/
theorem merge_prefer_uploaded_rule_witness :
    (firstMatch (_make_keycols [.name, .location] acetoneUploaded)
        ([acetoneExisting].map (_make_keycols [.name, .location])) = some 0)
    ∧ ([acetoneExisting][0]? = some acetoneExisting)
    ∧ ((applyMerge true [.name, .location] (fun _ => "fresh-1") [acetoneExisting]
        [acetoneUploaded])[0]? = some (mergeRow true acetoneExisting acetoneUploaded))
    ∧ (mergeRow true acetoneExisting acetoneUploaded).bottles = .int 5 :=
  ⟨by decide, by decide,
    (merge_prefer_uploaded_rule [acetoneExisting] acetoneUploaded [.name, .location]
      (fun _ => "fresh-1") 0 acetoneExisting (by decide) (by decide)).1,
    by decide⟩

/-- C2: in Merge/Upsert with the "prefer existing" policy, a field of the
matched existing row changes only when the existing value is empty and the
uploaded value non-empty; every field with a non-empty existing value stays
unchanged. -/
theorem merge_prefer_existing_rule (cur : List Row) (u : Row) (keys : List Field)
    (ids : Nat → String) (i : Nat) (ci : Row)
    (hm : firstMatch (_make_keycols keys u) (cur.map (_make_keycols keys)) = some i)
    (hc : cur[i]? = some ci) :
    (applyMerge false keys ids cur [u])[i]? = some (mergeRow false ci u)
    ∧ (∀ f : Field, getCol (mergeRow false ci u) f =
        (if (!_nonempty (getCol ci f)) && _nonempty (getCol u f)
          then getCol u f else getCol ci f))
    ∧ (∀ f : Field, _nonempty (getCol ci f) = true →
        getCol (mergeRow false ci u) f = getCol ci f) := by
  refine ⟨?_, ?_, ?_⟩
  · rw [applyMerge_single_matched false keys ids cur u i hm, updateAt_get_self, hc]
    rfl
  · intro f
    rw [getCol_mergeRow]
    rfl
  · intro f hf
    rw [getCol_mergeRow]
    show (if (!_nonempty (getCol ci f)) && _nonempty (getCol u f)
      then getCol u f else getCol ci f) = getCol ci f
    rw [if_neg (by simp [hf])]

/-- Witness for C2 at the spec's example: "prefer existing" keeps bottles 2. -/
theorem merge_prefer_existing_rule_witness :
    (firstMatch (_make_keycols [.name, .location] acetoneUploaded)
        ([acetoneExisting].map (_make_keycols [.name, .location])) = some 0)
    ∧ ([acetoneExisting][0]? = some acetoneExisting)
    ∧ ((applyMerge false [.name, .location] (fun _ => "fresh-1") [acetoneExisting]
        [acetoneUploaded])[0]? = some (mergeRow false acetoneExisting acetoneUploaded))
    ∧ (mergeRow false acetoneExisting acetoneUploaded).bottles = .int 2 :=
  ⟨by decide, by decide,
    (merge_prefer_existing_rule [acetoneExisting] acetoneUploaded [.name, .location]
      (fun _ => "fresh-1") 0 acetoneExisting (by decide) (by decide)).1,
    by decide⟩

/-- C9: when several existing records share the composite key, a matching
uploaded row updates only the first of them (lowest index): the result keeps
the length (nothing is inserted), every other position is unchanged, the
first-match position carries the merged row, and no earlier position has the
key. -/
theorem merge_duplicate_keys_first_only (p : Bool) (cur : List Row) (u : Row)
    (keys : List Field) (ids : Nat → String) (i : Nat)
    (hm : firstMatch (_make_keycols keys u) (cur.map (_make_keycols keys)) = some i) :
    (applyMerge p keys ids cur [u]).length = cur.length
    ∧ (∀ j, j ≠ i → (applyMerge p keys ids cur [u])[j]? = cur[j]?)
    ∧ (applyMerge p keys ids cur [u])[i]? = cur[i]?.map (fun c => mergeRow p c u)
    ∧ (∀ j cj, j < i → cur[j]? = some cj →
        _make_keycols keys cj ≠ _make_keycols keys u) := by
  rw [applyMerge_single_matched p keys ids cur u i hm]
  refine ⟨updateAt_length cur i _, fun j hj => updateAt_get_ne cur i j _ hj,
    updateAt_get_self cur i _, ?_⟩
  intro j cj hji hcj hkey
  apply firstMatch_first _ _ i hm j hji
  rw [List.getElem?_map, hcj, Option.map_some', hkey]

/-- Witness for C9: two existing Acetone/Shelf A rows; the uploaded Acetone
row leaves the second (index 1) untouched and inserts nothing. -/
theorem merge_duplicate_keys_first_only_witness :
    (firstMatch (_make_keycols [.name, .location] acetoneUploaded)
        ([acetoneExisting, acetoneDuplicate].map (_make_keycols [.name, .location])) = some 0)
    ∧ (applyMerge true [.name, .location] (fun _ => "f1")
        [acetoneExisting, acetoneDuplicate] [acetoneUploaded]).length = 2
    ∧ (applyMerge true [.name, .location] (fun _ => "f1")
        [acetoneExisting, acetoneDuplicate] [acetoneUploaded])[1]? = some acetoneDuplicate := by
  have h := merge_duplicate_keys_first_only true [acetoneExisting, acetoneDuplicate]
    acetoneUploaded [.name, .location] (fun _ => "f1") 0 (by decide)
  refine ⟨by decide, h.1, ?_⟩
  rw [h.2.1 1 (by decide)]
  decide

/-- C3: in Merge/Upsert every uploaded row whose composite key matches no
existing row is appended as a new record with a fresh row id; no uploaded row
is dropped, so the result has the previous length plus the number of
unmatched uploaded rows. -/
theorem merge_inserts_unmatched (p : Bool) (keys : List Field) (ids : Nat → String)
    (cur up : List Row) :
    (applyMerge p keys ids cur up).length
      = cur.length + up.countP
          (fun u => !((cur.map (_make_keycols keys)).contains (_make_keycols keys u)))
    ∧ (∀ u : Row,
        firstMatch (_make_keycols keys u) (cur.map (_make_keycols keys)) = none →
        applyMerge p keys ids cur [u] = cur ++ [{ u with row_id := some (ids 0) }]) := by
  constructor
  · unfold applyMerge
    rw [mergeFold_length]
    congr 1
    apply List.countP_congr
    intro u _
    rw [firstMatch_isNone]
  · intro u hm
    exact applyMerge_single_unmatched p keys ids cur u hm

/-- Witness for C3: an uploaded Benzene/Shelf B row matches nothing and is
appended with the fresh id. -/
theorem merge_inserts_unmatched_witness :
    (firstMatch (_make_keycols [.name, .location] benzeneUploaded)
        ([acetoneExisting].map (_make_keycols [.name, .location])) = none)
    ∧ applyMerge true [.name, .location] (fun _ => "id-9") [acetoneExisting] [benzeneUploaded]
        = [acetoneExisting] ++ [{ benzeneUploaded with row_id := some "id-9" }] :=
  ⟨by decide,
    (merge_inserts_unmatched true [.name, .location] (fun _ => "id-9")
      [acetoneExisting] [benzeneUploaded]).2 benzeneUploaded (by decide)⟩

end ChemInventory

namespace ChemInventory

/-- C4 counterexample: with match key [name, location], the rows
(name "a::b", location "c") and (name "a", location "b::c") build the same
composite key — the merge treats them as the same entry — although their
name values differ after trimming and lowercasing, so "exactly when each key
column agrees" fails as stated. -/
theorem make_keycols_collision_counterexample :
    _make_keycols [.name, .location] collideRow1 = _make_keycols [.name, .location] collideRow2
    ∧ firstMatch (_make_keycols [.name, .location] collideRow2)
        ([collideRow1].map (_make_keycols [.name, .location])) = some 0
    ∧ normKeyPart (getCol collideRow1 .name) ≠ normKeyPart (getCol collideRow2 .name) :=
  ⟨by decide, by decide, by decide⟩

/-- C4 amended: provided no trimmed-lowercased key value contains the
separator character ':', two rows build the same `_make_keycols` composite
key exactly when every chosen key column agrees after trimming and
lowercasing (and column-wise agreement always implies an equal key). -/
theorem make_keycols_amended (keys : List Field) (r₁ r₂ : Row)
    (hfree : ∀ k ∈ keys, colonFree (normKeyPart (getCol r₁ k)) = true
      ∧ colonFree (normKeyPart (getCol r₂ k)) = true) :
    _make_keycols keys r₁ = _make_keycols keys r₂
      ↔ ∀ k ∈ keys, normKeyPart (getCol r₁ k) = normKeyPart (getCol r₂ k) := by
  constructor
  · intro he k hk
    have hmaps := joinKey_inj (keys.map fun k => normKeyPart (getCol r₁ k))
      (keys.map fun k => normKeyPart (getCol r₂ k)) (by simp)
      (by
        intro s hs
        rcases List.mem_map.1 hs with ⟨k', hk', rfl⟩
        exact (hfree k' hk').1)
      (by
        intro s hs
        rcases List.mem_map.1 hs with ⟨k', hk', rfl⟩
        exact (hfree k' hk').2)
      he
    exact map_eq_map_iff_of_mem _ _ keys hmaps k hk
  · intro h
    unfold _make_keycols
    rw [map_eq_map_of_mem _ _ keys h]

/-- Witness for C4 (amended) at colon-free key values: the Acetone rows
match on [name, location] exactly by column-wise agreement. -/
theorem make_keycols_amended_witness :
    (∀ k ∈ [Field.name, Field.location],
        colonFree (normKeyPart (getCol acetoneExisting k)) = true
        ∧ colonFree (normKeyPart (getCol acetoneUploaded k)) = true)
    ∧ (_make_keycols [Field.name, Field.location] acetoneExisting
          = _make_keycols [Field.name, Field.location] acetoneUploaded
        ↔ ∀ k ∈ [Field.name, Field.location],
            normKeyPart (getCol acetoneExisting k) = normKeyPart (getCol acetoneUploaded k)) :=
  ⟨by decide,
    make_keycols_amended [Field.name, Field.location] acetoneExisting acetoneUploaded
      (by decide)⟩

/-- C6: normalizing an already-normalized record set is a no-op —
`_ensure_schema` is idempotent. -/
theorem ensure_schema_idempotent (rs : List Row) :
    _ensure_schema (_ensure_schema rs) = _ensure_schema rs := by
  unfold _ensure_schema
  rw [List.map_map]
  exact map_eq_map_of_mem _ _ rs (fun r _ => ensureSchemaRow_idem r)

/-- C10: a missing or unreadable (exception-raising) data file loads as the
empty record set rather than propagating an error, and saving that result
writes the empty table. -/
theorem load_data_swallows_errors :
    load_data .corrupt = [] ∧ load_data .missing = []
    ∧ (∀ ids : Nat → String, save_data ids (load_data .corrupt) = []) :=
  ⟨rfl, rfl, fun _ => rfl⟩

end ChemInventory

namespace ChemInventory

/-- C7 counterexample: a record with bottle count 0 keeps bottle count 0
through `_ensure_schema` — the code never enforces the ≥ 1 bound, so "always
a positive integer" fails as stated. -/
theorem bottles_not_clamped_counterexample :
    (_ensure_schema [zeroBottlesRow]).map (fun r => r.bottles) = [Value.int 0]
    ∧ ¬(1 ≤ (0 : Int)) :=
  ⟨by decide, by decide⟩

/-- C7 amended: after every load, save, or normalization step the bottles
field is an integer, and any value that is absent or fails to parse as a
number is coerced to the default 1; parsed numeric values are kept as their
(truncated) integer value, which may be zero or negative. -/
theorem bottles_integer_after_normalization :
    (∀ rs r, r ∈ _ensure_schema rs → ∃ n : Int, r.bottles = .int n)
    ∧ (∀ fs r, r ∈ load_data fs → ∃ n : Int, r.bottles = .int n)
    ∧ (∀ id r, ∃ n : Int, (saveNormRow id r).bottles = .int n)
    ∧ (∀ v, toNumeric v = .na → bottlesNorm v = .int 1) := by
  refine ⟨?_, ?_, ?_, ?_⟩
  · intro rs r hr
    rcases List.mem_map.1 hr with ⟨r0, _, rfl⟩
    exact ⟨bottlesInt r0.bottles, rfl⟩
  · intro fs r hr
    cases fs with
    | missing => cases hr
    | corrupt => cases hr
    | ok rows =>
      rcases List.mem_map.1 hr with ⟨c, _, rfl⟩
      exact ⟨bottlesInt (readCell c.bottles), rfl⟩
  · intro id r
    exact ⟨bottlesInt r.bottles, rfl⟩
  · intro v hv
    unfold bottlesNorm bottlesInt
    rw [hv]

/-- Witness for C7 (amended): the zero-bottles record normalizes to an
integer bottle count, and the unparseable string "abc" is coerced to 1. -/
theorem bottles_integer_after_normalization_witness :
    (ensureSchemaRow zeroBottlesRow ∈ _ensure_schema [zeroBottlesRow])
    ∧ (∃ n : Int, (ensureSchemaRow zeroBottlesRow).bottles = .int n)
    ∧ (toNumeric (Value.str "abc") = .na)
    ∧ bottlesNorm (Value.str "abc") = .int 1 :=
  ⟨by decide,
    bottles_integer_after_normalization.1 [zeroBottlesRow] (ensureSchemaRow zeroBottlesRow)
      (by decide),
    by decide,
    bottles_integer_after_normalization.2.2.2 (Value.str "abc") (by decide)⟩

/-- Every text column of a row cleaned by `loadRow` holds a string. -/
theorem loadRow_isStr_text (c : CsvRow) (f : Field) (hf : f ∈ textCols) :
    ∃ s, getCol (loadRow c) f = .str s := by
  simp only [textCols, List.mem_cons, List.mem_singleton] at hf
  rcases hf with rfl | rfl | rfl | rfl | rfl | rfl | rfl | rfl | rfl | h
  all_goals first
    | exact ⟨_, rfl⟩
    | cases h

/-- Every text column of a row normalized by `saveNormRow` holds a string. -/
theorem saveNormRow_isStr_text (id : String) (r : Row) (f : Field) (hf : f ∈ textCols) :
    ∃ s, getCol (saveNormRow id r) f = .str s := by
  simp only [textCols, List.mem_cons, List.mem_singleton] at hf
  rcases hf with rfl | rfl | rfl | rfl | rfl | rfl | rfl | rfl | rfl | h
  all_goals first
    | exact ⟨_, rfl⟩
    | cases h

/-- C8 counterexample: when the uploaded frame lacks a text column, that
column is created as `pd.NA` cells; `astype(str)` renders them `"<NA>"`,
which `replace({"nan": ""})` does not clear — so the absent name of
`missingColRow` normalizes to the string `"<NA>"`, not to the empty string. -/
theorem text_absent_column_counterexample :
    (_ensure_schema [missingColRow]).map (fun r => r.name) = [Value.str "<NA>"]
    ∧ Value.str "<NA>" ≠ Value.str "" :=
  ⟨by decide, by decide⟩

/-- C8 amended: after every load, save, or normalization step no text field
holds a missing value — each of the nine text columns carries a string.  An
absent cell value (`NaN`, as produced by reading) is normalized to the empty
string, but a wholly absent column (the `pd.NA` fill) stringifies to the
literal `"<NA>"` instead. -/
theorem text_fields_never_null :
    (∀ rs r, r ∈ _ensure_schema rs → ∀ f ∈ textCols, ∃ s, getCol r f = .str s)
    ∧ (∀ fs r, r ∈ load_data fs → ∀ f ∈ textCols, ∃ s, getCol r f = .str s)
    ∧ (∀ id r, ∀ f ∈ textCols, ∃ s, getCol (saveNormRow id r) f = .str s)
    ∧ (∀ r f, f ∈ textCols → getCol r f = .na → getCol (ensureSchemaRow r) f = .str "")
    ∧ (∀ r f, f ∈ textCols → getCol r f = .pdNA →
        getCol (ensureSchemaRow r) f = .str "<NA>") := by
  refine ⟨?_, ?_, ?_, ?_, ?_⟩
  · intro rs r hr f hf
    rcases List.mem_map.1 hr with ⟨r0, _, rfl⟩
    exact ensureSchemaRow_isStr_text r0 f hf
  · intro fs r hr f hf
    cases fs with
    | missing => cases hr
    | corrupt => cases hr
    | ok rows =>
      rcases List.mem_map.1 hr with ⟨c, _, rfl⟩
      exact loadRow_isStr_text c f hf
  · intro id r f hf
    exact saveNormRow_isStr_text id r f hf
  · intro r f hf hna
    simp only [textCols, List.mem_cons, List.mem_singleton] at hf
    rcases hf with rfl | rfl | rfl | rfl | rfl | rfl | rfl | rfl | rfl | h
    · show textNorm r.name = Value.str ""
      rw [show r.name = Value.na from hna]
      decide
    · show textNorm r.cas = Value.str ""
      rw [show r.cas = Value.na from hna]
      decide
    · show textNorm r.distributor = Value.str ""
      rw [show r.distributor = Value.na from hna]
      decide
    · show textNorm r.container_size = Value.str ""
      rw [show r.container_size = Value.na from hna]
      decide
    · show textNorm r.state = Value.str ""
      rw [show r.state = Value.na from hna]
      decide
    · show textNorm r.location = Value.str ""
      rw [show r.location = Value.na from hna]
      decide
    · show textNorm r.storage_conditions = Value.str ""
      rw [show r.storage_conditions = Value.na from hna]
      decide
    · show textNorm r.hazards = Value.str ""
      rw [show r.hazards = Value.na from hna]
      decide
    · show textNorm r.sds_link = Value.str ""
      rw [show r.sds_link = Value.na from hna]
      decide
    · cases h
  · intro r f hf hna
    simp only [textCols, List.mem_cons, List.mem_singleton] at hf
    rcases hf with rfl | rfl | rfl | rfl | rfl | rfl | rfl | rfl | rfl | h
    · show textNorm r.name = Value.str "<NA>"
      rw [show r.name = Value.pdNA from hna]
      decide
    · show textNorm r.cas = Value.str "<NA>"
      rw [show r.cas = Value.pdNA from hna]
      decide
    · show textNorm r.distributor = Value.str "<NA>"
      rw [show r.distributor = Value.pdNA from hna]
      decide
    · show textNorm r.container_size = Value.str "<NA>"
      rw [show r.container_size = Value.pdNA from hna]
      decide
    · show textNorm r.state = Value.str "<NA>"
      rw [show r.state = Value.pdNA from hna]
      decide
    · show textNorm r.location = Value.str "<NA>"
      rw [show r.location = Value.pdNA from hna]
      decide
    · show textNorm r.storage_conditions = Value.str "<NA>"
      rw [show r.storage_conditions = Value.pdNA from hna]
      decide
    · show textNorm r.hazards = Value.str "<NA>"
      rw [show r.hazards = Value.pdNA from hna]
      decide
    · show textNorm r.sds_link = Value.str "<NA>"
      rw [show r.sds_link = Value.pdNA from hna]
      decide
    · cases h

/-- Witness for C8 (amended): the all-missing record normalizes to empty
strings, and the `pd.NA`-filled name column normalizes to `"<NA>"`. -/
theorem text_fields_never_null_witness :
    (ensureSchemaRow naRow ∈ _ensure_schema [naRow])
    ∧ (∃ s, getCol (ensureSchemaRow naRow) .name = .str s)
    ∧ (getCol naRow .name = .na)
    ∧ (getCol (ensureSchemaRow naRow) .name = .str "")
    ∧ (getCol missingColRow .name = .pdNA)
    ∧ getCol (ensureSchemaRow missingColRow) .name = .str "<NA>" :=
  ⟨by decide,
    text_fields_never_null.1 [naRow] (ensureSchemaRow naRow) (by decide) .name (by decide),
    by decide,
    text_fields_never_null.2.2.2.1 naRow .name (by decide) (by decide),
    by decide,
    text_fields_never_null.2.2.2.2 missingColRow .name (by decide) (by decide)⟩

end ChemInventory

namespace ChemInventory

theorem saveRows_loadRow (ids : Nat → String) : ∀ (rs : List Row) (i : Nat),
    (∀ r ∈ rs, ∀ f ∈ textCols, textStableOK (getCol r f) = true) →
    (∀ r ∈ rs, carbOK r.carbons = true) →
    (∀ r ∈ rs, ∀ s, r.row_id = some s → stableTextString s = true) →
    (∀ j, stableTextString (ids j) = true) →
    (saveRows ids i rs).map loadRow = specNormalized ids i rs := by
  intro rs
  induction rs with
  | nil => intro i _ _ _ _; rfl
  | cons r t ih =>
    intro i ht hc hid hids
    simp only [saveRows, List.map_cons, specNormalized]
    have hrow : loadRow (writeRow (saveNormRow (ids i) r)) = specNormalizedRow (ids i) r := by
      apply loadRow_writeRow
      · exact ht r (by simp)
      · exact hc r (by simp)
      · cases hr : r.row_id with
        | none => simpa [hr] using hids i
        | some s => simpa [hr] using hid r (by simp) s hr
    rw [hrow, ih (i + 1)
      (fun r' h' => ht r' (List.mem_cons_of_mem r h'))
      (fun r' h' => hc r' (List.mem_cons_of_mem r h'))
      (fun r' h' => hid r' (List.mem_cons_of_mem r h'))
      hids]

/-- C5 amended: saving a record set and reading it back yields exactly its
type-normalized form (text fields as strings, bottle count as integer,
carbon count as integer-or-absent, row ids assigned where missing), provided
each normalized text field and each row id survives the CSV layer — i.e. is
empty, or is none of an NA token, a boolean/infinity/NaN token, and a
decimal literal (exponent forms included) — and each carbons value
normalizes to integer-or-absent and is no such token.  (Numeric-looking
text breaks the round trip: a name "05" re-parses as 5 and loads back as
"5", see the counterexample; "5e3" would load back as "5000.0".) -/
theorem save_load_roundtrip (ids : Nat → String) (rs : List Row)
    (ht : ∀ r ∈ rs, ∀ f ∈ textCols, textStableOK (getCol r f) = true)
    (hc : ∀ r ∈ rs, carbOK r.carbons = true)
    (hid : ∀ r ∈ rs, ∀ s, r.row_id = some s → stableTextString s = true)
    (hids : ∀ i, stableTextString (ids i) = true) :
    load_data (.ok (save_data ids rs)) = specNormalized ids 0 rs := by
  unfold load_data save_data
  exact saveRows_loadRow ids rs 0 ht hc hid hids

/-- Witness for C5 (amended) on a well-behaved record. -/
theorem save_load_roundtrip_witness :
    (∀ r ∈ [roundtripWitnessRow], ∀ f ∈ textCols, textStableOK (getCol r f) = true)
    ∧ (∀ r ∈ [roundtripWitnessRow], carbOK r.carbons = true)
    ∧ (∀ r ∈ [roundtripWitnessRow], ∀ s, r.row_id = some s → stableTextString s = true)
    ∧ (∀ i : Nat, stableTextString ((fun _ => "uuid-1") i) = true)
    ∧ load_data (.ok (save_data (fun _ => "uuid-1") [roundtripWitnessRow]))
        = specNormalized (fun _ => "uuid-1") 0 [roundtripWitnessRow] := by
  have h1 : ∀ r ∈ [roundtripWitnessRow], ∀ f ∈ textCols, textStableOK (getCol r f) = true := by
    decide
  have h2 : ∀ r ∈ [roundtripWitnessRow], carbOK r.carbons = true := by decide
  have h3 : ∀ r ∈ [roundtripWitnessRow], ∀ s, r.row_id = some s → stableTextString s = true := by
    intro r hr s hs
    rw [List.mem_singleton.1 hr] at hs
    have hs' : s = "row-1" := (Option.some.inj hs).symm
    rw [hs']
    decide
  have h4 : ∀ i : Nat, stableTextString ((fun _ => "uuid-1") i) = true := by
    intro i
    show stableTextString "uuid-1" = true
    decide
  exact ⟨h1, h2, h3, h4,
    save_load_roundtrip (fun _ => "uuid-1") [roundtripWitnessRow] h1 h2 h3 h4⟩

/-- C5 counterexample: a record whose name is the numeric-looking string
"05" does not round-trip — `read_csv` parses the written "05" as the number
5, and the loaded name is "5" while type normalization alone would keep
"05". -/
theorem roundtrip_leading_zero_counterexample :
    (load_data (.ok (save_data (fun _ => "u1") [leadingZeroRow]))).map (fun r => r.name)
      = [Value.str "5"]
    ∧ textNorm leadingZeroRow.name = Value.str "05"
    ∧ Value.str "5" ≠ Value.str "05" :=
  ⟨by decide, by decide, by decide⟩

end ChemInventory
